import Mathlib

/-!
Verification of the offline-first synchronization core of the calory-tracking
app: the IndexedDB-backed offline store (`offline-store.ts`), the offline-aware
data-access layer (`api-storage.ts`) and the background sync manager
(`sync-manager.ts`).

The TypeScript code is shallowly embedded: the three IndexedDB object stores
(`data`, `syncQueue`, `meta`) become association lists inside a `Store`
structure, the module-level sync-manager state becomes an `EngineState`
structure, and every async function becomes a pure state-passing function.
Network I/O is modelled by outcome oracles supplied as arguments, and the
observable effects of a drain pass (network requests issued, statuses
published, queue removals/updates) are returned as explicit traces.
-/

namespace CaloryTrack

/-- JSON-ish runtime values, modelling the `unknown` payloads the store holds.
JS numbers are modelled as `Int` (no claim depends on float semantics). -/
inductive JsonVal : Type where
  | str : String → JsonVal
  | num : Int → JsonVal
  | bool : Bool → JsonVal
  | null : JsonVal
  | arr : List JsonVal → JsonVal
  | obj : List (String × JsonVal) → JsonVal

/-- A JS object literal, `Record<string, unknown>`: an ordered field list. -/
abbrev JRecord := List (String × JsonVal)

/-- Property read `r[k]` on an object's field list: first matching field,
`none` models JS `undefined` for an absent property. -/
def recGet (r : JRecord) (k : String) : Option JsonVal :=
  (r.find? (fun p => p.1 == k)).map (fun p => p.2)

/-- Property read `v[k]` on an arbitrary value: non-objects yield `undefined`. -/
def jsonGet (v : JsonVal) (k : String) : Option JsonVal :=
  match v with
  | .obj fields => recGet fields k
  | _ => none

/-- JS strict equality `===` on property values, where `none` is `undefined`.
Objects and arrays compare by reference in JS; two separately stored values
are distinct references, so they are modelled as never strictly equal. -/
def jsStrictEq (a b : Option JsonVal) : Bool :=
  match a, b with
  | none, none => true
  | some (.str x), some (.str y) => x == y
  | some (.num x), some (.num y) => x == y
  | some (.bool x), some (.bool y) => x == y
  | some .null, some .null => true
  | _, _ => false

/-- Own enumerable fields produced by a JS object spread `{...v}`:
objects give their fields, strings and arrays give index-keyed entries,
other primitives give nothing. -/
def spreadFields (v : JsonVal) : JRecord :=
  match v with
  | .obj fields => fields
  | .str s => s.toList.enum.map (fun p => (toString p.1, JsonVal.str (String.mk [p.2])))
  | .arr xs => xs.enum.map (fun p => (toString p.1, p.2))
  | _ => []

/-- JS object spread `{...old, ...new}`: old fields in order with values
overridden by `new` where present, then the fields only `new` has. -/
def mergeRec (old new : JRecord) : JRecord :=
  old.map (fun p =>
    match recGet new p.1 with
    | some v => (p.1, v)
    | none => p) ++
  new.filter (fun p => (recGet old p.1).isNone)

/-- Whether a char list occurs at the head of another (helper for substring). -/
def leadsWith : List Char → List Char → Bool
  | [], _ => true
  | _ :: _, [] => false
  | c :: cs, d :: ds => c == d && leadsWith cs ds

/-- Whether `pat` occurs contiguously inside `l`. -/
def occursIn (pat : List Char) : List Char → Bool
  | [] => pat.isEmpty
  | c :: cs => leadsWith pat (c :: cs) || occursIn pat cs

/-- JS `s.includes(pat)`. -/
def strIncludes (s pat : String) : Bool := occursIn pat.toList s.toList

/-- Lexicographic comparison of char lists by code point; models
`a.localeCompare(b) <= 0` for the ASCII ISO timestamps the queue stores. -/
def lexLe : List Char → List Char → Bool
  | [], _ => true
  | _ :: _, [] => false
  | c :: cs, d :: ds =>
    if c.toNat < d.toNat then true
    else if d.toNat < c.toNat then false
    else lexLe cs ds

/-- Timestamp comparison used by the `getPendingSyncItems` sort comparator. -/
def tsLe (a b : String) : Bool := lexLe a.toList b.toList

/-- One record of the `data` object store: a cached API GET response. -/
structure CachedEntry where
  data : JsonVal
  cachedAt : String

/-- The `data` object store: key = request URL, value = cached response. -/
abbrev Cache := List (String × CachedEntry)

/-- IndexedDB `put` with an explicit key: upsert into an association list. -/
def putAssoc {α : Type} (k : String) (v : α) : List (String × α) → List (String × α)
  | [] => [(k, v)]
  | p :: rest => if p.1 == k then (k, v) :: rest else p :: putAssoc k v rest

/-- IndexedDB `get`: lookup by key. -/
def getAssoc {α : Type} (k : String) : List (String × α) → Option α
  | [] => none
  | p :: rest => if p.1 == k then some p.2 else getAssoc k rest

/-- `cacheApiResponse(url, data)`: store `{data, cachedAt}` under the URL key. -/
def cacheApiResponse (url : String) (data : JsonVal) (now : String) (cache : Cache) : Cache :=
  putAssoc url ⟨data, now⟩ cache

/-- `getCachedApiResponse(url)`. -/
def getCachedApiResponse (url : String) (cache : Cache) : Option CachedEntry :=
  getAssoc url cache

/-- One row of the `typeToCollectionMap` table in `applyLocalMutation`. -/
structure CollectionMapping where
  urlPattern : String
  collection : String
  idField : String

/-- The `typeToCollectionMap` lookup of `applyLocalMutation`, verbatim. -/
def typeToCollectionMap (type : String) : Option CollectionMapping :=
  if type == "user" then some ⟨"type=users", "users", "id"⟩
  else if type == "profile" then some ⟨"type=profile", "profiles", "userId"⟩
  else if type == "weightEntry" then some ⟨"type=weightEntries", "weightEntries", "id"⟩
  else if type == "foodLog" then some ⟨"type=foodLogs", "foodLogs", "id"⟩
  else if type == "bodyMeasurement" then some ⟨"type=bodyMeasurements", "bodyMeasurements", "id"⟩
  else if type == "product" then some ⟨"type=products", "products", "id"⟩
  else if type == "userFavorite" then some ⟨"type=userFavorites", "userFavorites", "id"⟩
  else none

/-- The in-place upsert `applyLocalMutation` performs on one cached array:
`findIndex(item => item[idField] === data[idField])`, then either
`arr[i] = {...arr[i], ...data}` or `arr.push(data)`. -/
def upsertArr (idField : String) (data : JRecord) (xs : List JsonVal) : List JsonVal :=
  match xs.findIdx? (fun item => jsStrictEq (jsonGet item idField) (recGet data idField)) with
  | some i => xs.set i (.obj (mergeRec (spreadFields (xs.getD i .null)) data))
  | none => xs ++ [.obj data]

/-- Whether `Array.isArray` holds of a cached value. -/
def isArrayVal : JsonVal → Bool
  | .arr _ => true
  | _ => false

/-- `applyLocalMutation(type, data)`: for a mapped type, walk every `data`-store
entry (the cursor); entries whose key contains the URL pattern and whose cached
value is an array get the upsert applied and a fresh `cachedAt`; everything
else is left untouched. Unmapped types leave the whole store untouched. -/
def applyLocalMutation (type : String) (data : JRecord) (now : String) (cache : Cache) : Cache :=
  match typeToCollectionMap type with
  | none => cache
  | some m =>
    cache.map (fun p =>
      if strIncludes p.1 m.urlPattern then
        match p.2.data with
        | .arr xs => (p.1, ⟨.arr (upsertArr m.idField data xs), now⟩)
        | _ => p
      else p)

/-- The `typeToUrlPattern` lookup of `applyLocalDeletion`, verbatim. -/
def typeToUrlPattern (type : String) : Option String :=
  if type == "foodLog" then some "type=foodLogs"
  else if type == "product" then some "type=products"
  else if type == "userFavorite" then some "type=userFavorites"
  else none

/-- `applyLocalDeletion(type, id)`: filter `item.id !== id` out of every
matching cached array. -/
def applyLocalDeletion (type : String) (id : String) (now : String) (cache : Cache) : Cache :=
  match typeToUrlPattern type with
  | none => cache
  | some pat =>
    cache.map (fun p =>
      if strIncludes p.1 pat then
        match p.2.data with
        | .arr xs =>
          (p.1, ⟨.arr (xs.filter (fun item => !(jsStrictEq (jsonGet item ("id")) (some (.str id))))), now⟩)
        | _ => p
      else p)

/-- HTTP method of a queued mutation (`'POST' | 'DELETE'`). -/
inductive HttpMethod : Type where
  | post : HttpMethod
  | delete : HttpMethod
deriving DecidableEq

/-- One record of the `syncQueue` object store (interface `SyncQueueItem`). -/
structure SyncQueueItem where
  id : String
  timestamp : String
  method : HttpMethod
  url : String
  body : Option String
  retries : Nat
deriving DecidableEq

abbrev SyncQueue := List SyncQueueItem

/-- IndexedDB `put` on the `syncQueue` store (`keyPath: 'id'`): replace the
record carrying the same id, or append a new record. -/
def putQueueItem (item : SyncQueueItem) : SyncQueue → SyncQueue
  | [] => [item]
  | it :: rest => if it.id == item.id then item :: rest else it :: putQueueItem item rest

/-- IndexedDB `delete` on the `syncQueue` store: drop the record with this id
(ids are unique store keys, so at most one record matches). -/
def deleteQueueItem (id : String) : SyncQueue → SyncQueue
  | [] => []
  | it :: rest => if it.id == id then rest else it :: deleteQueueItem id rest

/-- The three IndexedDB object stores of `kaloritrack-offline`. -/
structure Store where
  cache : Cache
  syncQueue : SyncQueue
  meta : List (String × JsonVal)

/-- `enqueueMutation(item)`: a fresh generated id (supplied by the caller as
the nondeterministic result of `Date.now()` + random suffix), `retries: 0`. -/
def enqueueMutation (freshId : String) (timestamp : String) (method : HttpMethod)
    (url : String) (body : Option String) (st : Store) : Store :=
  { st with syncQueue := putQueueItem ⟨freshId, timestamp, method, url, body, 0⟩ st.syncQueue }

/-- The comparator relation of `getPendingSyncItems`:
`a.timestamp.localeCompare(b.timestamp) <= 0`. -/
def tsRel (a b : SyncQueueItem) : Prop := tsLe a.timestamp b.timestamp = true

instance : DecidableRel tsRel := fun _ _ => inferInstanceAs (Decidable (_ = true))

/-- `getPendingSyncItems()`: all queued items sorted by timestamp ascending
(JS `Array.prototype.sort` with the `localeCompare` comparator: a stable sort
modelled by insertion sort). -/
def getPendingSyncItems (st : Store) : List SyncQueueItem :=
  List.insertionSort tsRel st.syncQueue

/-- `getPendingSyncCount()`. -/
def getPendingSyncCount (st : Store) : Nat := st.syncQueue.length

/-- `removeSyncItem(id)`. -/
def removeSyncItem (id : String) (st : Store) : Store :=
  { st with syncQueue := deleteQueueItem id st.syncQueue }

/-- `updateSyncItem(item)` (full overwrite by id). -/
def updateSyncItem (item : SyncQueueItem) (st : Store) : Store :=
  { st with syncQueue := putQueueItem item st.syncQueue }

/-- `setMetaValue(key, value)`. -/
def setMetaValue (k : String) (v : JsonVal) (st : Store) : Store :=
  { st with meta := putAssoc k v st.meta }

/-- `getMetaValue(key)`. -/
def getMetaValue (k : String) (st : Store) : Option JsonVal :=
  getAssoc k st.meta

-- ─── Sync manager (`sync-manager.ts`) ───

/-- `SyncStatus`. -/
inductive SyncStatus : Type where
  | idle : SyncStatus
  | syncing : SyncStatus
  | offline : SyncStatus
  | error : SyncStatus
deriving DecidableEq

/-- A subscribed `SyncListener`, identified by reference (modelled as a
numeric id). `run` returns `Except.error` when the listener throws. -/
structure Listener where
  id : Nat
  run : SyncStatus → Nat → Except String Unit

/-- Trace record of one listener invocation. -/
structure ListenerCall where
  listenerId : Nat
  status : SyncStatus
  pending : Nat
  result : Except String Unit

/-- The module-level mutable state of the sync manager: the `listeners` set,
`currentStatus`, `currentPending` and the `isSyncing` re-entrancy guard. -/
structure EngineState where
  listeners : List Listener
  currentStatus : SyncStatus
  currentPending : Nat
  isSyncing : Bool

/-- `notify(status, pending)`: store the new status and pending count, then
invoke every listener with that pair; each invocation is wrapped in
`try/catch` so a throwing listener neither stops the loop nor lets the
exception escape (hence `notify` is a total function and the call trace covers
every listener whatever the individual results are). -/
def notify (e : EngineState) (status : SyncStatus) (pending : Nat) :
    EngineState × List ListenerCall :=
  ({ e with currentStatus := status, currentPending := pending },
   e.listeners.map (fun l => ⟨l.id, status, pending, l.run status pending⟩))

/-- `onSyncStatusChange(listener)`: add to the `listeners` set (a JS `Set`:
adding an already-present reference changes nothing), then immediately invoke
the new listener with the current state. Returns the updated state and the
trace of that immediate synchronous invocation. -/
def onSyncStatusChange (e : EngineState) (l : Listener) : EngineState × ListenerCall :=
  ({ e with listeners :=
      if e.listeners.any (fun x => x.id == l.id) then e.listeners else e.listeners ++ [l] },
   ⟨l.id, e.currentStatus, e.currentPending, l.run e.currentStatus e.currentPending⟩)

def API_BASE : String := "/api/data"

def MAX_RETRIES : Nat := 5

/-- Outcome of one `fetch` of a replayed mutation: an HTTP response with a
status code, or a thrown network error. -/
inductive FetchOutcome : Type where
  | resp : Nat → FetchOutcome
  | netError : FetchOutcome

/-- The request `replayMutation` builds and sends. -/
structure ReplayRequest where
  method : HttpMethod
  url : String
  body : Option String
deriving DecidableEq

/-- URL resolution in `replayMutation`: absolute if already rooted, otherwise
prefixed with the API base. -/
def resolveUrl (u : String) : String :=
  if u.startsWith ("/") then u else API_BASE ++ u

def mkRequest (item : SyncQueueItem) : ReplayRequest :=
  ⟨item.method, resolveUrl item.url, item.body⟩

/-- `Response.ok`: status in the 2xx range. -/
def respOk (s : Nat) : Bool := decide (200 ≤ s ∧ s ≤ 299)

/-- The outcome classification of `replayMutation(item)`: 2xx → success,
4xx → reported as success so the item is dropped, anything else (5xx or a
thrown network error, caught inside the function) → failure. -/
def replayMutation (outcome : FetchOutcome) : Bool :=
  match outcome with
  | .resp s => if respOk s then true else if 400 ≤ s ∧ s < 500 then true else false
  | .netError => false

/-- Accumulator of the `for (const item of items)` loop of `processSyncQueue`,
extended with the observable traces. -/
structure LoopAcc where
  store : Store
  engine : EngineState
  remaining : Nat
  hadError : Bool
  netCalls : List ReplayRequest
  notifies : List (SyncStatus × Nat)
  listenerCalls : List ListenerCall
  removals : List String
  updates : List SyncQueueItem

/-- One iteration of the drain loop, given the fetch outcome oracle `net`.
The `catch` branch of the source duplicates the failure branch (increment
`retries`, drop at the ceiling, otherwise persist and flag the error), so a
single boolean outcome covers both. -/
def syncLoopStep (net : SyncQueueItem → FetchOutcome) (acc : LoopAcc) (item : SyncQueueItem) :
    LoopAcc :=
  if replayMutation (net item) then
    let st := removeSyncItem item.id acc.store
    let remaining := acc.remaining - 1
    let n := notify acc.engine .syncing remaining
    { acc with
      store := st, engine := n.1, remaining := remaining,
      netCalls := acc.netCalls ++ [mkRequest item],
      notifies := acc.notifies ++ [(.syncing, remaining)],
      listenerCalls := acc.listenerCalls ++ n.2,
      removals := acc.removals ++ [item.id] }
  else
    let item' : SyncQueueItem := { item with retries := item.retries + 1 }
    if MAX_RETRIES ≤ item'.retries then
      { acc with
        store := removeSyncItem item.id acc.store, remaining := acc.remaining - 1,
        netCalls := acc.netCalls ++ [mkRequest item],
        removals := acc.removals ++ [item.id] }
    else
      { acc with
        store := updateSyncItem item' acc.store, hadError := true,
        netCalls := acc.netCalls ++ [mkRequest item],
        updates := acc.updates ++ [item'] }

/-- The drain loop over the sorted pending items. -/
def syncLoop (net : SyncQueueItem → FetchOutcome) : List SyncQueueItem → LoopAcc → LoopAcc
  | [], acc => acc
  | it :: rest, acc => syncLoop net rest (syncLoopStep net acc it)

/-- The observable result of one `processSyncQueue()` invocation:
final engine and store state, the network requests issued (in order), the
statuses published, all listener invocations, the queue removals and updates
performed, and how many times the queue region was read
(`getPendingSyncItems` loads and `getPendingSyncCount` loads). -/
structure SyncResult where
  engine : EngineState
  store : Store
  netCalls : List ReplayRequest
  notifies : List (SyncStatus × Nat)
  listenerCalls : List ListenerCall
  removals : List String
  updates : List SyncQueueItem
  queueLoads : Nat
  countLoads : Nat

/-- `processSyncQueue()`, big-step. `online` is the value `navigator.onLine`
reports during the call, `net` gives each replayed item's fetch outcome and
`now` the ISO string `new Date().toISOString()` produces after the loop. -/
def processSyncQueue (online : Bool) (net : SyncQueueItem → FetchOutcome) (now : String)
    (e : EngineState) (st : Store) : SyncResult :=
  if e.isSyncing then
    ⟨e, st, [], [], [], [], [], 0, 0⟩
  else if !online then
    let count := getPendingSyncCount st
    let n := notify e .offline count
    ⟨n.1, st, [], [(.offline, count)], n.2, [], [], 0, 1⟩
  else
    let e1 : EngineState := { e with isSyncing := true }
    let items := getPendingSyncItems st
    if items.isEmpty then
      let e2 : EngineState := { e1 with isSyncing := false }
      let n := notify e2 .idle 0
      ⟨n.1, st, [], [(.idle, 0)], n.2, [], [], 1, 0⟩
    else
      let n0 := notify e1 .syncing items.length
      let acc := syncLoop net items ⟨st, n0.1, items.length, false, [], [], [], [], []⟩
      let st1 := setMetaValue ("lastSyncedAt") (.str now) acc.store
      let e3 : EngineState := { acc.engine with isSyncing := false }
      let finalStatus := if acc.hadError then SyncStatus.error else SyncStatus.idle
      let n1 := notify e3 finalStatus acc.remaining
      ⟨n1.1, st1, acc.netCalls,
       ((.syncing, items.length) :: acc.notifies) ++ [(finalStatus, acc.remaining)],
       n0.2 ++ acc.listenerCalls ++ n1.2, acc.removals, acc.updates, 1, 0⟩

/-- `triggerSync()`: run a pass only when online and not already syncing. -/
def triggerSync (online : Bool) (net : SyncQueueItem → FetchOutcome) (now : String)
    (e : EngineState) (st : Store) : EngineState × Store :=
  if online && !e.isSyncing then
    let r := processSyncQueue online net now e st
    (r.engine, r.store)
  else (e, st)

-- ─── Offline-aware data access layer (`api-storage.ts`) ───

/-- Outcome of the `fetch` inside `offlineGet`: a response (status + parsed
JSON body) or a thrown network error. -/
inductive GetOutcome : Type where
  | resp : Nat → JsonVal → GetOutcome
  | netError : GetOutcome

/-- The network-failure condition of the read path: a thrown fetch or a
non-2xx response (the source throws `HTTP ${status}` on non-ok and lands in
the same catch). -/
def getFails : GetOutcome → Prop
  | .resp s _ => respOk s = false
  | .netError => True

/-- `offlineGet(url)`: network first; on a 2xx response cache the payload in
the background and return it (`cacheOk` tells whether that fire-and-forget
cache write completed — its failure is swallowed); on failure fall back to the
cached entry; `none` models the final `throw new Error('Offline and no cached
data')`. Returns the data and the cache afterwards. -/
def offlineGet (net : GetOutcome) (cacheOk : Bool) (now : String) (url : String)
    (cache : Cache) : Option JsonVal × Cache :=
  match net with
  | .resp s body =>
    if respOk s then
      (some body, if cacheOk then cacheApiResponse url body now cache else cache)
    else
      match getCachedApiResponse url cache with
      | some entry => (some entry.data, cache)
      | none => (none, cache)
  | .netError =>
    match getCachedApiResponse url cache with
    | some entry => (some entry.data, cache)
    | none => (none, cache)

/-- Per-write environment: connectivity, the outcome of the immediate push
fetch, the oracle any triggered drain pass replays against, the timestamp
`new Date().toISOString()` yields, and the id `enqueueMutation` generates. -/
structure WriteCtx where
  online : Bool
  pushNet : FetchOutcome
  net : SyncQueueItem → FetchOutcome
  now : String
  freshId : String

/-- `offlinePost(body, optimistic)`: optimistic cache patch (fire-and-forget,
modelled as completing; it touches only the `data` region), durable enqueue,
then — when online — an immediate push whose success triggers a sync pass and
returns the response; otherwise fall through to an unconditional
`triggerSync()` and return `null`. -/
def offlinePost (ctx : WriteCtx) (body : String) (optimistic : Option (String × JRecord))
    (e : EngineState) (st : Store) : EngineState × Store × Option Nat :=
  let st1 :=
    match optimistic with
    | some o => { st with cache := applyLocalMutation o.1 o.2 ctx.now st.cache }
    | none => st
  let st2 := enqueueMutation ctx.freshId ctx.now .post API_BASE (some body) st1
  if ctx.online then
    match ctx.pushNet with
    | .resp s =>
      if respOk s then
        let t := triggerSync ctx.online ctx.net ctx.now e st2
        (t.1, t.2, some s)
      else
        let t := triggerSync ctx.online ctx.net ctx.now e st2
        (t.1, t.2, none)
    | .netError =>
      let t := triggerSync ctx.online ctx.net ctx.now e st2
      (t.1, t.2, none)
  else
    let t := triggerSync ctx.online ctx.net ctx.now e st2
    (t.1, t.2, none)

/-- `offlineDelete(url, optimistic)`: the deletion-flavored mirror of
`offlinePost` (no body on the queued mutation). -/
def offlineDelete (ctx : WriteCtx) (url : String) (optimistic : Option (String × String))
    (e : EngineState) (st : Store) : EngineState × Store :=
  let st1 :=
    match optimistic with
    | some o => { st with cache := applyLocalDeletion o.1 o.2 ctx.now st.cache }
    | none => st
  let st2 := enqueueMutation ctx.freshId ctx.now .delete url none st1
  if ctx.online then
    match ctx.pushNet with
    | .resp s =>
      if respOk s then triggerSync ctx.online ctx.net ctx.now e st2
      else triggerSync ctx.online ctx.net ctx.now e st2
    | .netError => triggerSync ctx.online ctx.net ctx.now e st2
  else
    triggerSync ctx.online ctx.net ctx.now e st2

/-- One UI-level write: a POST (`offlinePost`) or a DELETE (`offlineDelete`). -/
inductive WriteOp : Type where
  | post : WriteCtx → String → Option (String × JRecord) → WriteOp
  | del : WriteCtx → String → Option (String × String) → WriteOp

/-- The environment of a write. -/
def WriteOp.wctx : WriteOp → WriteCtx
  | .post c _ _ => c
  | .del c _ _ => c

/-- The queue id `enqueueMutation` generates for a write. -/
def WriteOp.freshId (op : WriteOp) : String := op.wctx.freshId

/-- Execute one write against the engine and store. -/
def applyWrite (op : WriteOp) (s : EngineState × Store) : EngineState × Store :=
  match op with
  | .post ctx body optimistic =>
    let r := offlinePost ctx body optimistic s.1 s.2
    (r.1, r.2.1)
  | .del ctx url optimistic => offlineDelete ctx url optimistic s.1 s.2

/-- Execute a sequence of writes in order. -/
def applyWrites (ops : List WriteOp) (s : EngineState × Store) : EngineState × Store :=
  ops.foldl (fun s op => applyWrite op s) s

/-- Iterate `processSyncQueue` passes: pass `k` uses the outcome oracle
`nets k` and timestamp `nows k`. -/
def runPasses (online : Bool) (nets : Nat → SyncQueueItem → FetchOutcome)
    (nows : Nat → String) : Nat → EngineState × Store → EngineState × Store
  | 0, s => s
  | n + 1, s =>
    let s' := runPasses online nets nows n s
    let r := processSyncQueue online (nets n) (nows n) s'.1 s'.2
    (r.engine, r.store)

/-- The full trace of pass `k` in such an iteration. -/
def passResult (online : Bool) (nets : Nat → SyncQueueItem → FetchOutcome)
    (nows : Nat → String) (k : Nat) (s : EngineState × Store) : SyncResult :=
  let s' := runPasses online nets nows k s
  processSyncQueue online (nets k) (nows k) s'.1 s'.2

-- ─── Helper lemmas ───

lemma getAssoc_putAssoc_self {α : Type} (k : String) (v : α) (l : List (String × α)) :
    getAssoc k (putAssoc k v l) = some v := by
  induction l with
  | nil => simp [putAssoc, getAssoc]
  | cons p rest ih =>
    by_cases h : p.1 == k
    · simp [putAssoc, getAssoc, h]
    · simp only [putAssoc, h, Bool.false_eq_true, if_false, getAssoc]
      simp [h, ih]

lemma findIdx?_start_some_lt {α : Type} {p : α → Bool} :
    ∀ {xs : List α} {s i : Nat}, List.findIdx? p xs s = some i → i < s + xs.length := by
  intro xs
  induction xs with
  | nil => intro s i h; simp [List.findIdx?] at h
  | cons x rest ih =>
    intro s i h
    rw [List.findIdx?_cons] at h
    by_cases hp : p x
    · rw [if_pos hp] at h
      injection h with h0
      simp only [List.length_cons]
      omega
    · rw [if_neg hp] at h
      have := ih h
      simp only [List.length_cons]
      omega

lemma findIdx?_some_lt {α : Type} {p : α → Bool} {xs : List α} {i : Nat}
    (h : xs.findIdx? p = some i) : i < xs.length := by
  have := findIdx?_start_some_lt h
  omega

lemma lexLe_total : ∀ (a b : List Char), lexLe a b = true ∨ lexLe b a = true := by
  intro a
  induction a with
  | nil => intro b; left; simp [lexLe]
  | cons x xs ih =>
    intro b
    cases b with
    | nil => right; simp [lexLe]
    | cons y ys =>
      simp only [lexLe]
      rcases Nat.lt_trichotomy x.toNat y.toNat with h | h | h
      · left; simp [h]
      · rw [if_neg (by omega), if_neg (by omega), if_neg (by omega), if_neg (by omega)]
        exact ih ys
      · right; simp [h]

lemma lexLe_trans : ∀ (a b c : List Char),
    lexLe a b = true → lexLe b c = true → lexLe a c = true := by
  intro a
  induction a with
  | nil => intro b c _ _; simp [lexLe]
  | cons x xs ih =>
    intro b c h1 h2
    cases b with
    | nil => simp [lexLe] at h1
    | cons y ys =>
      cases c with
      | nil => simp [lexLe] at h2
      | cons z zs =>
        simp only [lexLe] at h1 h2 ⊢
        rcases Nat.lt_trichotomy x.toNat y.toNat with hxy | hxy | hxy
        · rcases Nat.lt_trichotomy y.toNat z.toNat with hyz | hyz | hyz
          · rw [if_pos (by omega)]
          · rw [if_pos (by omega)]
          · rw [if_neg (by omega), if_pos hyz] at h2
            exact absurd h2 (by simp)
        · rw [if_neg (by omega), if_neg (by omega)] at h1
          rcases Nat.lt_trichotomy y.toNat z.toNat with hyz | hyz | hyz
          · rw [if_pos (by omega)]
          · rw [if_neg (by omega), if_neg (by omega)] at h2
            rw [if_neg (by omega), if_neg (by omega)]
            exact ih ys zs h1 h2
          · rw [if_neg (by omega), if_pos hyz] at h2
            exact absurd h2 (by simp)
        · rw [if_neg (by omega), if_pos hxy] at h1
          exact absurd h1 (by simp)

instance : IsTotal SyncQueueItem tsRel :=
  ⟨fun a b => by
    rcases lexLe_total a.timestamp.toList b.timestamp.toList with h | h
    · exact Or.inl h
    · exact Or.inr h⟩

instance : IsTrans SyncQueueItem tsRel :=
  ⟨fun _ _ _ h1 h2 => lexLe_trans _ _ _ h1 h2⟩

/-- An item of a drain pass that fails its replay but stays queued with a
bumped retry counter: the pass's error flag is set exactly by these. -/
def keptOnFail (net : SyncQueueItem → FetchOutcome) (it : SyncQueueItem) : Bool :=
  !replayMutation (net it) && decide (it.retries + 1 < MAX_RETRIES)

lemma countP_not_add_countP {α : Type} (p : α → Bool) (l : List α) :
    l.countP (fun a => !p a) + l.countP p = l.length := by
  induction l with
  | nil => simp
  | cons x rest ih =>
    simp only [List.countP_cons, List.length_cons]
    cases hp : p x <;> simp [hp] <;> omega

lemma syncLoopStep_netCalls (net : SyncQueueItem → FetchOutcome) (acc : LoopAcc)
    (it : SyncQueueItem) :
    (syncLoopStep net acc it).netCalls = acc.netCalls ++ [mkRequest it] := by
  unfold syncLoopStep
  split
  · rfl
  · dsimp only
    split <;> rfl

lemma syncLoopStep_meta (net : SyncQueueItem → FetchOutcome) (acc : LoopAcc)
    (it : SyncQueueItem) :
    (syncLoopStep net acc it).store.meta = acc.store.meta := by
  unfold syncLoopStep removeSyncItem updateSyncItem
  split
  · rfl
  · dsimp only
    split <;> rfl

lemma syncLoopStep_cache (net : SyncQueueItem → FetchOutcome) (acc : LoopAcc)
    (it : SyncQueueItem) :
    (syncLoopStep net acc it).store.cache = acc.store.cache := by
  unfold syncLoopStep removeSyncItem updateSyncItem
  split
  · rfl
  · dsimp only
    split <;> rfl

lemma syncLoopStep_isSyncing (net : SyncQueueItem → FetchOutcome) (acc : LoopAcc)
    (it : SyncQueueItem) :
    (syncLoopStep net acc it).engine.isSyncing = acc.engine.isSyncing := by
  unfold syncLoopStep notify
  split
  · rfl
  · dsimp only
    split <;> rfl

lemma syncLoopStep_hadError (net : SyncQueueItem → FetchOutcome) (acc : LoopAcc)
    (it : SyncQueueItem) :
    (syncLoopStep net acc it).hadError = (acc.hadError || keptOnFail net it) := by
  unfold syncLoopStep keptOnFail
  by_cases hok : replayMutation (net it)
  · simp [hok]
  · simp only [Bool.not_eq_true] at hok
    by_cases h5 : MAX_RETRIES ≤ it.retries + 1
    · simp [hok, h5, Nat.not_lt.mpr h5]
    · simp [hok, h5, Nat.lt_of_not_le h5]

lemma syncLoopStep_remaining (net : SyncQueueItem → FetchOutcome) (acc : LoopAcc)
    (it : SyncQueueItem) :
    (syncLoopStep net acc it).remaining =
      acc.remaining - (if keptOnFail net it then 0 else 1) := by
  unfold syncLoopStep keptOnFail
  by_cases hok : replayMutation (net it)
  · simp [hok]
  · simp only [Bool.not_eq_true] at hok
    by_cases h5 : MAX_RETRIES ≤ it.retries + 1
    · simp [hok, h5, Nat.not_lt.mpr h5]
    · simp [hok, h5, Nat.lt_of_not_le h5]

lemma syncLoopStep_removals (net : SyncQueueItem → FetchOutcome) (acc : LoopAcc)
    (it : SyncQueueItem) :
    (syncLoopStep net acc it).removals =
      acc.removals ++ (if keptOnFail net it then [] else [it.id]) := by
  unfold syncLoopStep keptOnFail
  by_cases hok : replayMutation (net it)
  · simp [hok]
  · simp only [Bool.not_eq_true] at hok
    by_cases h5 : MAX_RETRIES ≤ it.retries + 1
    · simp [hok, h5, Nat.not_lt.mpr h5]
    · simp [hok, h5, Nat.lt_of_not_le h5]

lemma syncLoopStep_updates (net : SyncQueueItem → FetchOutcome) (acc : LoopAcc)
    (it : SyncQueueItem) :
    (syncLoopStep net acc it).updates =
      acc.updates ++
        (if keptOnFail net it then [{ it with retries := it.retries + 1 }] else []) := by
  unfold syncLoopStep keptOnFail
  by_cases hok : replayMutation (net it)
  · simp [hok]
  · simp only [Bool.not_eq_true] at hok
    by_cases h5 : MAX_RETRIES ≤ it.retries + 1
    · simp [hok, h5, Nat.not_lt.mpr h5]
    · simp [hok, h5, Nat.lt_of_not_le h5]

lemma syncLoop_netCalls (net : SyncQueueItem → FetchOutcome) :
    ∀ (items : List SyncQueueItem) (acc : LoopAcc),
      (syncLoop net items acc).netCalls = acc.netCalls ++ items.map mkRequest := by
  intro items
  induction items with
  | nil => intro acc; simp [syncLoop]
  | cons it rest ih =>
    intro acc
    simp only [syncLoop, ih, syncLoopStep_netCalls, List.map_cons, List.append_assoc,
      List.singleton_append]

lemma syncLoop_meta (net : SyncQueueItem → FetchOutcome) :
    ∀ (items : List SyncQueueItem) (acc : LoopAcc),
      (syncLoop net items acc).store.meta = acc.store.meta := by
  intro items
  induction items with
  | nil => intro acc; simp [syncLoop]
  | cons it rest ih => intro acc; simp only [syncLoop, ih, syncLoopStep_meta]

lemma syncLoop_cache (net : SyncQueueItem → FetchOutcome) :
    ∀ (items : List SyncQueueItem) (acc : LoopAcc),
      (syncLoop net items acc).store.cache = acc.store.cache := by
  intro items
  induction items with
  | nil => intro acc; simp [syncLoop]
  | cons it rest ih => intro acc; simp only [syncLoop, ih, syncLoopStep_cache]

lemma syncLoop_isSyncing (net : SyncQueueItem → FetchOutcome) :
    ∀ (items : List SyncQueueItem) (acc : LoopAcc),
      (syncLoop net items acc).engine.isSyncing = acc.engine.isSyncing := by
  intro items
  induction items with
  | nil => intro acc; simp [syncLoop]
  | cons it rest ih => intro acc; simp only [syncLoop, ih, syncLoopStep_isSyncing]

lemma syncLoop_hadError (net : SyncQueueItem → FetchOutcome) :
    ∀ (items : List SyncQueueItem) (acc : LoopAcc),
      (syncLoop net items acc).hadError = (acc.hadError || items.any (keptOnFail net)) := by
  intro items
  induction items with
  | nil => intro acc; simp [syncLoop]
  | cons it rest ih =>
    intro acc
    simp only [syncLoop, ih, syncLoopStep_hadError, List.any_cons, Bool.or_assoc]

lemma syncLoop_remaining (net : SyncQueueItem → FetchOutcome) :
    ∀ (items : List SyncQueueItem) (acc : LoopAcc),
      (syncLoop net items acc).remaining =
        acc.remaining - items.countP (fun it => !keptOnFail net it) := by
  intro items
  induction items with
  | nil => intro acc; simp [syncLoop]
  | cons it rest ih =>
    intro acc
    simp only [syncLoop, ih, syncLoopStep_remaining, List.countP_cons]
    by_cases hk : keptOnFail net it
    · simp [hk]
    · simp only [hk, Bool.not_false, if_true, Bool.false_eq_true, if_false]
      omega

lemma syncLoop_updates (net : SyncQueueItem → FetchOutcome) :
    ∀ (items : List SyncQueueItem) (acc : LoopAcc),
      (syncLoop net items acc).updates =
        acc.updates ++
          (items.filter (keptOnFail net)).map (fun it => { it with retries := it.retries + 1 }) := by
  intro items
  induction items with
  | nil => intro acc; simp [syncLoop]
  | cons it rest ih =>
    intro acc
    simp only [syncLoop, ih, syncLoopStep_updates, List.filter_cons]
    by_cases hk : keptOnFail net it
    · simp [hk, List.append_assoc]
    · simp [hk]

lemma syncLoop_removals (net : SyncQueueItem → FetchOutcome) :
    ∀ (items : List SyncQueueItem) (acc : LoopAcc),
      (syncLoop net items acc).removals =
        acc.removals ++ (items.filter (fun it => !keptOnFail net it)).map (fun it => it.id) := by
  intro items
  induction items with
  | nil => intro acc; simp [syncLoop]
  | cons it rest ih =>
    intro acc
    simp only [syncLoop, ih, syncLoopStep_removals, List.filter_cons]
    by_cases hk : keptOnFail net it
    · simp [hk]
    · simp [hk, List.append_assoc]

lemma pass_empty (net : SyncQueueItem → FetchOutcome) (now : String) (e : EngineState)
    (st : Store) (hg : e.isSyncing = false) (hq : st.syncQueue = []) :
    processSyncQueue true net now e st =
      ⟨⟨e.listeners, .idle, 0, false⟩, st, [], [(.idle, 0)],
       e.listeners.map (fun l => ⟨l.id, .idle, 0, l.run .idle 0⟩), [], [], 1, 0⟩ := by
  simp [processSyncQueue, hg, getPendingSyncItems, hq, List.insertionSort, notify]

lemma processSyncQueue_run_proj (net : SyncQueueItem → FetchOutcome) (now : String)
    (e : EngineState) (st : Store) (hg : e.isSyncing = false)
    (hne : (getPendingSyncItems st).isEmpty = false) :
    (processSyncQueue true net now e st).netCalls = (getPendingSyncItems st).map mkRequest
    ∧ getMetaValue ("lastSyncedAt") (processSyncQueue true net now e st).store =
        some (.str now)
    ∧ (processSyncQueue true net now e st).engine.isSyncing = false
    ∧ (processSyncQueue true net now e st).notifies.getLast? =
        some (if (getPendingSyncItems st).any (keptOnFail net) then SyncStatus.error
              else SyncStatus.idle,
          (getPendingSyncItems st).countP (keptOnFail net)) := by
  simp only [processSyncQueue, hg, Bool.not_true, Bool.false_eq_true, if_false, hne]
  refine ⟨?_, ?_, ?_, ?_⟩
  · rw [syncLoop_netCalls]
    simp
  · simp only [getMetaValue, setMetaValue]
    exact getAssoc_putAssoc_self _ _ _
  · simp [notify]
  · rw [List.getLast?_concat]
    rw [syncLoop_hadError, syncLoop_remaining]
    have h3 := countP_not_add_countP (keptOnFail net) (getPendingSyncItems st)
    simp only [Bool.false_or]
    congr 1
    ext
    · rfl
    · dsimp only
      omega

lemma pass_singleton (net : SyncQueueItem → FetchOutcome) (now : String) (e : EngineState)
    (st : Store) (it : SyncQueueItem) (hg : e.isSyncing = false) (hq : st.syncQueue = [it]) :
    (processSyncQueue true net now e st).netCalls = [mkRequest it]
    ∧ (processSyncQueue true net now e st).store.syncQueue =
        (if keptOnFail net it then [{ it with retries := it.retries + 1 }] else [])
    ∧ (processSyncQueue true net now e st).store.cache = st.cache
    ∧ (processSyncQueue true net now e st).engine.isSyncing = false
    ∧ (processSyncQueue true net now e st).removals =
        (if keptOnFail net it then [] else [it.id])
    ∧ (processSyncQueue true net now e st).updates =
        (if keptOnFail net it then [{ it with retries := it.retries + 1 }] else []) := by
  obtain ⟨cache, q, meta⟩ := st
  simp only at hq
  subst hq
  by_cases hok : replayMutation (net it) = true
  · have hk : keptOnFail net it = false := by simp [keptOnFail, hok]
    simp [processSyncQueue, hg, getPendingSyncItems, List.insertionSort, List.orderedInsert,
      syncLoop, syncLoopStep, hok, hk, removeSyncItem, deleteQueueItem, setMetaValue, notify]
  · have hok' : replayMutation (net it) = false := by
      cases h : replayMutation (net it)
      · rfl
      · exact absurd h hok
    by_cases h5 : MAX_RETRIES ≤ it.retries + 1
    · have hk : keptOnFail net it = false := by
        simp [keptOnFail, hok', Nat.not_lt.mpr h5]
      simp [processSyncQueue, hg, getPendingSyncItems, List.insertionSort, List.orderedInsert,
        syncLoop, syncLoopStep, hok', hk, h5, removeSyncItem, deleteQueueItem, setMetaValue,
        notify]
    · have hk : keptOnFail net it = true := by
        simp [keptOnFail, hok', Nat.lt_of_not_le h5]
      simp [processSyncQueue, hg, getPendingSyncItems, List.insertionSort, List.orderedInsert,
        syncLoop, syncLoopStep, hok', hk, h5, updateSyncItem, putQueueItem, setMetaValue,
        notify]

-- ─── C8: end-of-pass finalization ───

/-- C8. Every drain pass that enters the replay loop (guard clear, online,
non-empty queue) ends — whatever the per-item outcomes `net` dictates — by
persisting `lastSyncedAt = now` in the meta region, clearing the `isSyncing`
guard, and publishing as its last status `error` exactly when at least one
item of the pass failed and was kept queued (`keptOnFail`), else `idle`,
together with the number of items remaining (the kept ones). -/
theorem drain_pass_finalization (net : SyncQueueItem → FetchOutcome) (now : String)
    (e : EngineState) (st : Store) (hg : e.isSyncing = false) (hne : st.syncQueue ≠ []) :
    getMetaValue ("lastSyncedAt") (processSyncQueue true net now e st).store =
      some (.str now)
    ∧ (processSyncQueue true net now e st).engine.isSyncing = false
    ∧ (processSyncQueue true net now e st).notifies.getLast? =
        some (if (getPendingSyncItems st).any (keptOnFail net) then SyncStatus.error
              else SyncStatus.idle,
          (getPendingSyncItems st).countP (keptOnFail net)) := by
  have hperm : (getPendingSyncItems st).Perm st.syncQueue :=
    List.perm_insertionSort tsRel st.syncQueue
  have hemp : (getPendingSyncItems st).isEmpty = false := by
    cases hi : getPendingSyncItems st with
    | nil =>
      exfalso
      have hl := hperm.length_eq
      rw [hi] at hl
      simp only [List.length_nil] at hl
      exact hne (List.length_eq_zero.mp hl.symm)
    | cons a l => rfl
  obtain ⟨-, h2, h3, h4⟩ := processSyncQueue_run_proj net now e st hg hemp
  exact ⟨h2, h3, h4⟩

/-- Witness for C8: one queued item whose replay hits a 500; the pass persists
the timestamp, clears the guard, and ends on `error` with one item kept. -/
theorem drain_pass_finalization_witness :
    getMetaValue ("lastSyncedAt")
        (processSyncQueue true (fun _ => .resp 500) ("T0")
          ⟨[], .idle, 0, false⟩ ⟨[], [⟨"a", "t1", .post, "/u", none, 0⟩], []⟩).store =
      some (.str ("T0"))
    ∧ (processSyncQueue true (fun _ => .resp 500) ("T0")
        ⟨[], .idle, 0, false⟩ ⟨[], [⟨"a", "t1", .post, "/u", none, 0⟩], []⟩).engine.isSyncing =
      false
    ∧ (processSyncQueue true (fun _ => .resp 500) ("T0")
        ⟨[], .idle, 0, false⟩ ⟨[], [⟨"a", "t1", .post, "/u", none, 0⟩], []⟩).notifies.getLast? =
        some (if (getPendingSyncItems
                ⟨[], [⟨"a", "t1", .post, "/u", none, 0⟩], []⟩).any
                  (keptOnFail (fun _ => .resp 500)) then SyncStatus.error
              else SyncStatus.idle,
          (getPendingSyncItems ⟨[], [⟨"a", "t1", .post, "/u", none, 0⟩], []⟩).countP
            (keptOnFail (fun _ => .resp 500))) :=
  drain_pass_finalization (fun _ => .resp 500) ("T0") ⟨[], .idle, 0, false⟩
    ⟨[], [⟨"a", "t1", .post, "/u", none, 0⟩], []⟩ rfl (by simp)

-- ─── C3: replay in ascending timestamp order ───

/-- C3. A drain pass (guard clear, online) issues its network requests exactly
over the timestamp-sorted load of the queue: the requests are the sorted
items' requests in order, the sorted load is a permutation of the queue, and —
when the queued timestamps are pairwise distinct — consecutive replayed items
are in strictly ascending timestamp order. -/
theorem replay_ascending_timestamps (net : SyncQueueItem → FetchOutcome) (now : String)
    (e : EngineState) (st : Store) (hg : e.isSyncing = false)
    (hts : (st.syncQueue.map SyncQueueItem.timestamp).Nodup) :
    (processSyncQueue true net now e st).netCalls = (getPendingSyncItems st).map mkRequest
    ∧ (getPendingSyncItems st).Perm st.syncQueue
    ∧ (getPendingSyncItems st).Pairwise
        (fun a b => tsLe a.timestamp b.timestamp = true ∧ a.timestamp ≠ b.timestamp) := by
  have hperm : (getPendingSyncItems st).Perm st.syncQueue :=
    List.perm_insertionSort tsRel st.syncQueue
  refine ⟨?_, hperm, ?_⟩
  · cases hemp : (getPendingSyncItems st).isEmpty
    · exact (processSyncQueue_run_proj net now e st hg hemp).1
    · have hitems : getPendingSyncItems st = [] := by
        cases hi : getPendingSyncItems st with
        | nil => rfl
        | cons a l => rw [hi] at hemp; simp at hemp
      have hq : st.syncQueue = [] := by
        have hl := hperm.length_eq
        rw [hitems] at hl
        simp only [List.length_nil] at hl
        exact List.length_eq_zero.mp hl.symm
      rw [pass_empty net now e st hg hq, hitems]
      rfl
  · have hsorted : (getPendingSyncItems st).Pairwise tsRel :=
      List.sorted_insertionSort tsRel st.syncQueue
    have hnodup : ((getPendingSyncItems st).map SyncQueueItem.timestamp).Nodup :=
      ((hperm.map SyncQueueItem.timestamp).symm).nodup hts
    have hne : (getPendingSyncItems st).Pairwise (fun a b => a.timestamp ≠ b.timestamp) :=
      List.pairwise_map.mp hnodup
    exact hsorted.and hne

/-- Witness for C3: two items enqueued out of timestamp order are replayed in
ascending order. -/
theorem replay_ascending_timestamps_witness :
    (processSyncQueue true (fun _ => .resp 200) ("T0") ⟨[], .idle, 0, false⟩
        ⟨[], [⟨"a", "t2", .post, "/x", none, 0⟩, ⟨"b", "t1", .delete, "/y", none, 0⟩],
         []⟩).netCalls =
      (getPendingSyncItems
        ⟨[], [⟨"a", "t2", .post, "/x", none, 0⟩, ⟨"b", "t1", .delete, "/y", none, 0⟩],
         []⟩).map mkRequest
    ∧ (getPendingSyncItems
        ⟨[], [⟨"a", "t2", .post, "/x", none, 0⟩, ⟨"b", "t1", .delete, "/y", none, 0⟩],
         []⟩).Perm
        [⟨"a", "t2", .post, "/x", none, 0⟩, ⟨"b", "t1", .delete, "/y", none, 0⟩]
    ∧ (getPendingSyncItems
        ⟨[], [⟨"a", "t2", .post, "/x", none, 0⟩, ⟨"b", "t1", .delete, "/y", none, 0⟩],
         []⟩).Pairwise
        (fun a b => tsLe a.timestamp b.timestamp = true ∧ a.timestamp ≠ b.timestamp) :=
  replay_ascending_timestamps (fun _ => .resp 200) ("T0") ⟨[], .idle, 0, false⟩
    ⟨[], [⟨"a", "t2", .post, "/x", none, 0⟩, ⟨"b", "t1", .delete, "/y", none, 0⟩], []⟩
    rfl (by decide)

-- ─── C2: 4xx handled as a drop after one attempt ───

/-- C2. A response status in 400–499 makes `replayMutation` report success, so
a queued item whose replay yields such a status is removed from the queue by
the drain pass after exactly one network request, through the success path:
no `updateSyncItem` happens (its `retries` counter is never incremented) and
the removal is independent of `MAX_RETRIES` (the item's `retries` value is
arbitrary here). -/
theorem client_error_dropped_once (s : Nat) (h4 : 400 ≤ s) (h5 : s ≤ 499)
    (net : SyncQueueItem → FetchOutcome) (now : String) (e : EngineState) (st : Store)
    (it : SyncQueueItem) (hg : e.isSyncing = false) (hq : st.syncQueue = [it])
    (hnet : net it = .resp s) :
    replayMutation (.resp s) = true
    ∧ (processSyncQueue true net now e st).netCalls = [mkRequest it]
    ∧ (processSyncQueue true net now e st).store.syncQueue = []
    ∧ (processSyncQueue true net now e st).removals = [it.id]
    ∧ (processSyncQueue true net now e st).updates = [] := by
  have hok : replayMutation (.resp s) = true := by
    have hro : respOk s = false := by
      simp only [respOk, decide_eq_false_iff_not]
      omega
    simp only [replayMutation, hro, Bool.false_eq_true, if_false]
    rw [if_pos (by omega)]
  have hk : keptOnFail net it = false := by
    simp [keptOnFail, hnet, hok]
  obtain ⟨h1, h2, -, -, h3, h4'⟩ := pass_singleton net now e st it hg hq
  rw [hk] at h2 h3 h4'
  simp only [Bool.false_eq_true, if_false] at h2 h3 h4'
  exact ⟨hok, h1, h2, h3, h4'⟩

/-- Witness for C2: a 404 on an item that already has 9 retries is dropped
after its single replay, with no retry-count update. -/
theorem client_error_dropped_once_witness :
    replayMutation (.resp 404) = true
    ∧ (processSyncQueue true (fun _ => .resp 404) ("T0") ⟨[], .idle, 0, false⟩
        ⟨[], [⟨"a", "t1", .post, "/u", none, 9⟩], []⟩).netCalls =
        [mkRequest ⟨"a", "t1", .post, "/u", none, 9⟩]
    ∧ (processSyncQueue true (fun _ => .resp 404) ("T0") ⟨[], .idle, 0, false⟩
        ⟨[], [⟨"a", "t1", .post, "/u", none, 9⟩], []⟩).store.syncQueue = []
    ∧ (processSyncQueue true (fun _ => .resp 404) ("T0") ⟨[], .idle, 0, false⟩
        ⟨[], [⟨"a", "t1", .post, "/u", none, 9⟩], []⟩).removals = ["a"]
    ∧ (processSyncQueue true (fun _ => .resp 404) ("T0") ⟨[], .idle, 0, false⟩
        ⟨[], [⟨"a", "t1", .post, "/u", none, 9⟩], []⟩).updates = [] :=
  client_error_dropped_once 404 (by decide) (by decide) (fun _ => .resp 404) ("T0")
    ⟨[], .idle, 0, false⟩ ⟨[], [⟨"a", "t1", .post, "/u", none, 9⟩], []⟩
    ⟨"a", "t1", .post, "/u", none, 9⟩ rfl rfl rfl

-- ─── C1: bounded retries, removal at the ceiling ───

lemma fail_run_state (it : SyncQueueItem) (e : EngineState) (st : Store)
    (nets : Nat → SyncQueueItem → FetchOutcome) (nows : Nat → String)
    (hr : it.retries = 0) (hg : e.isSyncing = false) (hq : st.syncQueue = [it])
    (hfail : ∀ p x, replayMutation (nets p x) = false) :
    ∀ k, k ≤ MAX_RETRIES →
      (runPasses true nets nows k (e, st)).1.isSyncing = false
      ∧ (runPasses true nets nows k (e, st)).2.syncQueue =
          (if k < MAX_RETRIES then [{ it with retries := k }] else []) := by
  intro k
  induction k with
  | zero =>
    intro _
    refine ⟨hg, ?_⟩
    rw [if_pos (by simp [MAX_RETRIES])]
    show st.syncQueue = [{ it with retries := 0 }]
    rw [hq, ← hr]
  | succ k ih =>
    intro hk5
    obtain ⟨ihs, ihq⟩ := ih (by omega)
    rw [if_pos (by simp only [MAX_RETRIES] at hk5 ⊢; omega)] at ihq
    have hps := pass_singleton (nets k) (nows k) (runPasses true nets nows k (e, st)).1
      (runPasses true nets nows k (e, st)).2 { it with retries := k } ihs ihq
    have hknet : keptOnFail (nets k) { it with retries := k } =
        decide (k + 1 < MAX_RETRIES) := by
      simp [keptOnFail, hfail]
    constructor
    · simp only [runPasses]
      exact hps.2.2.2.1
    · simp only [runPasses]
      rw [hps.2.1, hknet]
      by_cases hlt : k + 1 < MAX_RETRIES
      · rw [if_pos (by simpa using hlt), if_pos hlt]
      · rw [if_neg (by simpa using hlt), if_neg hlt]

/-- C1. For a single queued mutation starting at `retries = 0` whose replay
always fails retryably (the oracle makes every `replayMutation` report
failure), successive drain passes increment its `retries` by exactly one
each — after pass `k+1` the stored item carries `retries = k + 1` until the
pass that reaches `MAX_RETRIES` removes it —, each of the first
`MAX_RETRIES` passes issues exactly one replay request for it (five replays
in total), after `MAX_RETRIES` passes the queue is empty, and the following
pass issues no request at all: no sixth replay ever occurs. -/
theorem bounded_retries_exhaustion (it : SyncQueueItem) (e : EngineState) (st : Store)
    (nets : Nat → SyncQueueItem → FetchOutcome) (nows : Nat → String)
    (hr : it.retries = 0) (hg : e.isSyncing = false) (hq : st.syncQueue = [it])
    (hfail : ∀ p x, replayMutation (nets p x) = false) :
    (∀ k, k < MAX_RETRIES →
        (passResult true nets nows k (e, st)).netCalls = [mkRequest it])
    ∧ (∀ k, k < MAX_RETRIES →
        (runPasses true nets nows (k + 1) (e, st)).2.syncQueue =
          (if k + 1 < MAX_RETRIES then [{ it with retries := k + 1 }] else []))
    ∧ (runPasses true nets nows MAX_RETRIES (e, st)).2.syncQueue = []
    ∧ (passResult true nets nows MAX_RETRIES (e, st)).netCalls = [] := by
  have hrun := fail_run_state it e st nets nows hr hg hq hfail
  refine ⟨?_, ?_, ?_, ?_⟩
  · intro k hk
    obtain ⟨hs, hqk⟩ := hrun k (by omega)
    rw [if_pos hk] at hqk
    have hps := pass_singleton (nets k) (nows k) (runPasses true nets nows k (e, st)).1
      (runPasses true nets nows k (e, st)).2 { it with retries := k } hs hqk
    have : mkRequest { it with retries := k } = mkRequest it := rfl
    rw [passResult]
    rw [hps.1, this]
  · intro k hk
    exact (hrun (k + 1) (by omega)).2
  · have := (hrun MAX_RETRIES (by omega)).2
    rw [if_neg (by omega)] at this
    exact this
  · obtain ⟨hs, hqk⟩ := hrun MAX_RETRIES (by omega)
    rw [if_neg (by omega)] at hqk
    rw [passResult]
    rw [pass_empty (nets MAX_RETRIES) (nows MAX_RETRIES) _ _ hs hqk]

/-- Witness for C1: a concrete always-500 mutation is gone after five passes,
each of the first five passes replays it exactly once, and the sixth pass
replays nothing. -/
theorem bounded_retries_exhaustion_witness :
    (passResult true (fun _ _ => .resp 500) (fun _ => "T") 0
        (⟨[], .idle, 0, false⟩, ⟨[], [⟨"a", "t1", .post, "/u", none, 0⟩], []⟩)).netCalls =
      [mkRequest ⟨"a", "t1", .post, "/u", none, 0⟩]
    ∧ (runPasses true (fun _ _ => .resp 500) (fun _ => "T") 3
        (⟨[], .idle, 0, false⟩, ⟨[], [⟨"a", "t1", .post, "/u", none, 0⟩], []⟩)).2.syncQueue =
        (if 3 < MAX_RETRIES then [⟨"a", "t1", .post, "/u", none, 3⟩] else [])
    ∧ (runPasses true (fun _ _ => .resp 500) (fun _ => "T") MAX_RETRIES
        (⟨[], .idle, 0, false⟩, ⟨[], [⟨"a", "t1", .post, "/u", none, 0⟩], []⟩)).2.syncQueue = []
    ∧ (passResult true (fun _ _ => .resp 500) (fun _ => "T") MAX_RETRIES
        (⟨[], .idle, 0, false⟩, ⟨[], [⟨"a", "t1", .post, "/u", none, 0⟩], []⟩)).netCalls = [] :=
  ⟨(bounded_retries_exhaustion ⟨"a", "t1", .post, "/u", none, 0⟩ ⟨[], .idle, 0, false⟩
      ⟨[], [⟨"a", "t1", .post, "/u", none, 0⟩], []⟩ (fun _ _ => .resp 500) (fun _ => "T")
      rfl rfl rfl (fun _ _ => rfl)).1 0 (by decide),
   (bounded_retries_exhaustion ⟨"a", "t1", .post, "/u", none, 0⟩ ⟨[], .idle, 0, false⟩
      ⟨[], [⟨"a", "t1", .post, "/u", none, 0⟩], []⟩ (fun _ _ => .resp 500) (fun _ => "T")
      rfl rfl rfl (fun _ _ => rfl)).2.1 2 (by decide),
   (bounded_retries_exhaustion ⟨"a", "t1", .post, "/u", none, 0⟩ ⟨[], .idle, 0, false⟩
      ⟨[], [⟨"a", "t1", .post, "/u", none, 0⟩], []⟩ (fun _ _ => .resp 500) (fun _ => "T")
      rfl rfl rfl (fun _ _ => rfl)).2.2.1,
   (bounded_retries_exhaustion ⟨"a", "t1", .post, "/u", none, 0⟩ ⟨[], .idle, 0, false⟩
      ⟨[], [⟨"a", "t1", .post, "/u", none, 0⟩], []⟩ (fun _ _ => .resp 500) (fun _ => "T")
      rfl rfl rfl (fun _ _ => rfl)).2.2.2⟩

-- ─── C4: re-entrancy guard ───

/-- C4. If `processSyncQueue` is invoked while the `isSyncing` guard is set,
the invocation is a complete no-op: engine and store are untouched, the queue
region is never read (no `getPendingSyncItems` or `getPendingSyncCount`
load), no network request is issued and nothing is published. Since the
source sets the guard synchronously before its first `await` of the online
path and clears it only at the end of the pass, a second concurrent call
lands in this branch, so two concurrent calls perform exactly one pass. -/
theorem processSyncQueue_guard_noop (online : Bool) (net : SyncQueueItem → FetchOutcome)
    (now : String) (e : EngineState) (st : Store) (h : e.isSyncing = true) :
    processSyncQueue online net now e st = ⟨e, st, [], [], [], [], [], 0, 0⟩ := by
  simp [processSyncQueue, h]

/-- Witness for C4 at a concrete engine state with the guard set. -/
theorem processSyncQueue_guard_noop_witness :
    processSyncQueue true (fun _ => .netError) ("t") ⟨[], .syncing, 3, true⟩ ⟨[], [], []⟩ =
      ⟨⟨[], .syncing, 3, true⟩, ⟨[], [], []⟩, [], [], [], [], [], 0, 0⟩ :=
  processSyncQueue_guard_noop true (fun _ => .netError) ("t") ⟨[], .syncing, 3, true⟩
    ⟨[], [], []⟩ rfl

-- ─── C5: queue durability of offline writes ───

lemma putQueueItem_fresh (it : SyncQueueItem) :
    ∀ (q : SyncQueue), (∀ x ∈ q, x.id ≠ it.id) → putQueueItem it q = q ++ [it] := by
  intro q
  induction q with
  | nil => intro _; rfl
  | cons y rest ih =>
    intro h
    have hy : (y.id == it.id) = false := by
      simp only [beq_eq_false_iff_ne, ne_eq]
      exact h y (List.mem_cons_self y rest)
    simp only [putQueueItem, hy, Bool.false_eq_true, if_false, List.cons_append,
      List.cons.injEq, true_and]
    exact ih (fun x hx => h x (List.mem_cons_of_mem y hx))

lemma applyWrite_offline (op : WriteOp) (e : EngineState) (st : Store)
    (h : op.wctx.online = false) (hfresh : ∀ x ∈ st.syncQueue, x.id ≠ op.freshId) :
    (applyWrite op (e, st)).2.syncQueue.map (fun x => x.id) =
      st.syncQueue.map (fun x => x.id) ++ [op.freshId]
    ∧ (applyWrite op (e, st)).1 = e := by
  cases op with
  | post ctx body optimistic =>
    simp only [WriteOp.wctx] at h
    simp only [WriteOp.freshId, WriteOp.wctx] at hfresh ⊢
    cases optimistic with
    | none =>
      simp only [applyWrite, offlinePost, h, Bool.false_eq_true, if_false, triggerSync,
        Bool.false_and, enqueueMutation]
      refine ⟨?_, trivial⟩
      rw [putQueueItem_fresh _ _ (fun x hx => (hfresh x hx))]
      simp
    | some o =>
      simp only [applyWrite, offlinePost, h, Bool.false_eq_true, if_false, triggerSync,
        Bool.false_and, enqueueMutation]
      refine ⟨?_, trivial⟩
      rw [putQueueItem_fresh _ _ (fun x hx => (hfresh x hx))]
      simp
  | del ctx url optimistic =>
    simp only [WriteOp.wctx] at h
    simp only [WriteOp.freshId, WriteOp.wctx] at hfresh ⊢
    cases optimistic with
    | none =>
      simp only [applyWrite, offlineDelete, h, Bool.false_eq_true, if_false, triggerSync,
        Bool.false_and, enqueueMutation]
      refine ⟨?_, trivial⟩
      rw [putQueueItem_fresh _ _ (fun x hx => (hfresh x hx))]
      simp
    | some o =>
      simp only [applyWrite, offlineDelete, h, Bool.false_eq_true, if_false, triggerSync,
        Bool.false_and, enqueueMutation]
      refine ⟨?_, trivial⟩
      rw [putQueueItem_fresh _ _ (fun x hx => (hfresh x hx))]
      simp

lemma applyWrites_offline_ids :
    ∀ (ops : List WriteOp) (e : EngineState) (st : Store),
      (∀ op ∈ ops, op.wctx.online = false) →
      ((st.syncQueue.map (fun x => x.id)) ++ ops.map WriteOp.freshId).Nodup →
      (applyWrites ops (e, st)).2.syncQueue.map (fun x => x.id) =
        st.syncQueue.map (fun x => x.id) ++ ops.map WriteOp.freshId := by
  intro ops
  induction ops with
  | nil => intro e st _ _; simp [applyWrites]
  | cons op rest ih =>
    intro e st hoff hnodup
    have hfresh : ∀ x ∈ st.syncQueue, x.id ≠ op.freshId := by
      intro x hx
      have hdisj := (List.nodup_append.mp hnodup).2.2
      have hxid : x.id ∈ st.syncQueue.map (fun y => y.id) :=
        List.mem_map_of_mem _ hx
      intro hcontra
      exact hdisj hxid (by rw [hcontra]; exact List.mem_cons_self _ _)
    obtain ⟨hids, heng⟩ :=
      applyWrite_offline op e st (hoff op (List.mem_cons_self op rest)) hfresh
    have step : applyWrites (op :: rest) (e, st) = applyWrites rest (applyWrite op (e, st)) :=
      rfl
    rw [step]
    have hpair : applyWrite op (e, st) = ((applyWrite op (e, st)).1, (applyWrite op (e, st)).2) :=
      rfl
    rw [hpair]
    rw [ih (applyWrite op (e, st)).1 (applyWrite op (e, st)).2
      (fun o ho => hoff o (List.mem_cons_of_mem op ho)) ?hnd]
    · rw [hids, List.map_cons, List.append_assoc, List.singleton_append]
    case hnd =>
      rw [hids, List.append_assoc, List.singleton_append]
      exact hnodup

/-- C5. Offline writes are durably enqueued one-for-one: starting from an
empty queue, any sequence of `offlinePost`/`offlineDelete` calls issued while
offline (with the generated queue ids pairwise distinct, as `Date.now()` plus
a random suffix produces) leaves, after its first `k` writes, exactly `k`
items in the sync queue — nothing is lost or coalesced before a drain. The
unconditional `triggerSync()` at the end of each write is a no-op offline, so
no drain interferes. -/
theorem offline_queue_durability (ops : List WriteOp) (e : EngineState) (st : Store)
    (hoff : ∀ op ∈ ops, op.wctx.online = false) (hinit : st.syncQueue = [])
    (hids : (ops.map WriteOp.freshId).Nodup) :
    ∀ k, k ≤ ops.length →
      ((applyWrites (ops.take k) (e, st)).2.syncQueue).length = k := by
  intro k hk
  have hoffk : ∀ op ∈ ops.take k, op.wctx.online = false :=
    fun op h => hoff op ((List.take_sublist k ops).subset h)
  have hidsk :
      ((st.syncQueue.map (fun x => x.id)) ++ (ops.take k).map WriteOp.freshId).Nodup := by
    rw [hinit]
    simp only [List.map_nil, List.nil_append, List.map_take]
    exact (List.take_sublist k (ops.map WriteOp.freshId)).nodup hids
  have h := applyWrites_offline_ids (ops.take k) e st hoffk hidsk
  have hlen := congrArg List.length h
  simp only [List.length_map, hinit, List.map_nil, List.nil_append, List.length_take] at hlen
  rw [hlen]
  omega

/-- Witness for C5: two offline writes (a POST with an optimistic patch and a
DELETE) produce a queue of exactly two items. -/
theorem offline_queue_durability_witness :
    ((applyWrites
        (List.take 2
          [WriteOp.post ⟨false, .netError, fun _ => .netError, "T1", "id1"⟩ ("B1")
            (some ("weightEntry", [("id", .str ("w1")), ("weight", .num 72)])),
           WriteOp.del ⟨false, .netError, fun _ => .netError, "T2", "id2"⟩
            ("/api/data?type=foodLog&id=f1") (some ("foodLog", "f1"))])
        (⟨[], .offline, 0, false⟩, ⟨[], [], []⟩)).2.syncQueue).length = 2 :=
  offline_queue_durability
    [WriteOp.post ⟨false, .netError, fun _ => .netError, "T1", "id1"⟩ ("B1")
      (some ("weightEntry", [("id", .str ("w1")), ("weight", .num 72)])),
     WriteOp.del ⟨false, .netError, fun _ => .netError, "T2", "id2"⟩
      ("/api/data?type=foodLog&id=f1") (some ("foodLog", "f1"))]
    ⟨[], .offline, 0, false⟩ ⟨[], [], []⟩
    (by
      intro op h
      cases h with
      | head => rfl
      | tail _ h2 =>
        cases h2 with
        | head => rfl
        | tail _ h3 => cases h3)
    rfl (by decide) 2 (by decide)

-- ─── C6: cache fallback round trip ───

/-- C6. A successful read of key `K` returning a 2xx response with payload `V`
caches `V` under `K` (the background cache write completing); any later
`offlineGet(K)` whose fetch fails — thrown network error or non-2xx response —
returns exactly `V` from the cache. -/
theorem offlineGet_cache_fallback (cache : Cache) (url now now2 : String) (v : JsonVal)
    (s : Nat) (hs : respOk s = true) (fail : GetOutcome) (hf : getFails fail) (ck2 : Bool) :
    (offlineGet fail ck2 now2 url (offlineGet (.resp s v) true now url cache).2).1 = some v := by
  have hcache : (offlineGet (.resp s v) true now url cache).2 =
      cacheApiResponse url v now cache := by
    simp [offlineGet, hs]
  rw [hcache]
  have hget : getCachedApiResponse url (cacheApiResponse url v now cache) = some ⟨v, now⟩ := by
    simp only [getCachedApiResponse, cacheApiResponse]
    exact getAssoc_putAssoc_self url ⟨v, now⟩ cache
  cases fail with
  | resp s2 body =>
    have hs2 : respOk s2 = false := hf
    simp [offlineGet, hs2, hget]
  | netError => simp [offlineGet, hget]

/-- Witness for C6: cache a string under a key via a 200 response, then read
it back with the network throwing. -/
theorem offlineGet_cache_fallback_witness :
    respOk 200 = true ∧ getFails .netError ∧
      (offlineGet .netError false ("t2") ("/api/data?type=users")
        (offlineGet (.resp 200 (.str ("hello"))) true ("t1") ("/api/data?type=users") []).2).1 =
        some (.str ("hello")) :=
  ⟨by decide, trivial,
   offlineGet_cache_fallback [] ("/api/data?type=users") ("t1") ("t2") (.str ("hello")) 200
     (by decide) .netError trivial false⟩

-- ─── C7: optimistic visibility of offline POSTs ───

lemma recGet_cons (k0 : String) (v0 : JsonVal) (r : JRecord) (k : String) :
    recGet ((k0, v0) :: r) k = if k0 == k then some v0 else recGet r k := by
  simp only [recGet, List.find?_cons]
  cases k0 == k <;> simp

lemma recGet_append (A B : JRecord) (k : String) :
    recGet (A ++ B) k =
      match recGet A k with
      | some v => some v
      | none => recGet B k := by
  simp only [recGet, List.find?_append]
  cases List.find? (fun p => p.1 == k) A <;> simp [Option.or]

lemma recGet_mapOverride (new : JRecord) :
    ∀ (old : JRecord) (k : String),
      recGet (old.map (fun p =>
        match recGet new p.1 with
        | some v => (p.1, v)
        | none => p)) k =
      match recGet old k with
      | none => none
      | some w =>
        match recGet new k with
        | some v => some v
        | none => some w := by
  intro old
  induction old with
  | nil => intro k; simp [recGet]
  | cons p rest ih =>
    intro k
    obtain ⟨k0, v0⟩ := p
    cases hnew : recGet new k0 with
    | some v =>
      simp only [List.map_cons, hnew]
      rw [recGet_cons, recGet_cons]
      by_cases hk : (k0 == k)
      · have hkk : k0 = k := eq_of_beq hk
        subst hkk
        simp [hk, hnew]
      · simp [hk, ih]
    | none =>
      simp only [List.map_cons, hnew]
      rw [recGet_cons, recGet_cons]
      by_cases hk : (k0 == k)
      · have hkk : k0 = k := eq_of_beq hk
        subst hkk
        simp [hk, hnew]
      · simp [hk, ih]

lemma recGet_filterKey (q : String → Bool) :
    ∀ (r : JRecord) (k : String),
      recGet (r.filter (fun p => q p.1)) k = if q k then recGet r k else none := by
  intro r
  induction r with
  | nil => intro k; simp [recGet]
  | cons p rest ih =>
    intro k
    obtain ⟨k0, v0⟩ := p
    rw [List.filter_cons]
    by_cases hq : q (k0, v0).1
    · rw [if_pos (by simpa using hq)]
      rw [recGet_cons]
      by_cases hk : (k0 == k)
      · have hkk : k0 = k := eq_of_beq hk
        subst hkk
        simp only at hq
        simp [hq, hk, recGet_cons]
      · rw [ih, recGet_cons]
        simp [hk]
    · rw [if_neg (by simpa using hq)]
      rw [ih]
      simp only at hq
      by_cases hk : (k0 == k)
      · have hkk : k0 = k := eq_of_beq hk
        subst hkk
        simp [hq]
      · rw [recGet_cons]
        simp [hk]

lemma recGet_mergeRec (old new : JRecord) (k : String) (v : JsonVal)
    (h : recGet new k = some v) : recGet (mergeRec old new) k = some v := by
  unfold mergeRec
  rw [recGet_append, recGet_mapOverride]
  cases hold : recGet old k with
  | some w => simp [h]
  | none =>
    rw [recGet_filterKey (fun key => (recGet old key).isNone) new k]
    simp [hold, h]

/-- The upserted array always holds an element carrying every field of the
upserted record: the pushed record itself, or the spread-merge of the matched
element with the record (whose fields win). -/
lemma upsertArr_contains (idField : String) (data : JRecord) (xs : List JsonVal) :
    ∃ el ∈ upsertArr idField data xs,
      ∀ k v, recGet data k = some v → jsonGet el k = some v := by
  unfold upsertArr
  cases hidx : xs.findIdx?
      (fun item => jsStrictEq (jsonGet item idField) (recGet data idField)) with
  | none =>
    refine ⟨.obj data, ?_, ?_⟩
    · exact List.mem_append_right xs (List.mem_singleton.mpr rfl)
    · intro k v h
      simpa [jsonGet] using h
  | some i =>
    have hlt : i < xs.length := findIdx?_some_lt hidx
    refine ⟨.obj (mergeRec (spreadFields (xs.getD i .null)) data), ?_, ?_⟩
    · exact List.mem_set xs i hlt _
    · intro k v h
      simpa [jsonGet] using recGet_mergeRec (spreadFields (xs.getD i .null)) data k v h

/-- C7. After an optimistic patch `applyLocalMutation(T, R)` for a mapped
collection type `T`, every previously cached response whose key contains the
type's URL pattern and whose cached payload is an array now caches the
upserted array, and that array contains an element with every field of `R`:
the matched element spread-merged with `R` (whose fields override) when an
element with the same identity-field value existed, else the appended `R`
itself. -/
theorem optimistic_patch_visibility (T : String) (m : CollectionMapping) (data : JRecord)
    (now : String) (cache : Cache) (key : String) (entry : CachedEntry) (xs : List JsonVal)
    (hm : typeToCollectionMap T = some m) (hmem : (key, entry) ∈ cache)
    (hpat : strIncludes key m.urlPattern = true) (harr : entry.data = .arr xs) :
    (key, (⟨.arr (upsertArr m.idField data xs), now⟩ : CachedEntry)) ∈
      applyLocalMutation T data now cache
    ∧ ∃ el ∈ upsertArr m.idField data xs,
        ∀ k v, recGet data k = some v → jsonGet el k = some v := by
  constructor
  · have hf := List.mem_map_of_mem (fun p : String × CachedEntry =>
      if strIncludes p.1 m.urlPattern then
        match p.2.data with
        | .arr ys => (p.1, (⟨.arr (upsertArr m.idField data ys), now⟩ : CachedEntry))
        | _ => p
      else p) hmem
    simp only [applyLocalMutation, hm]
    simpa [hpat, harr] using hf
  · exact upsertArr_contains m.idField data xs

/-- Witness for C7: a weight entry upserted into a cached weight-entry list;
the cached array for the matching key contains the new record. -/
theorem optimistic_patch_visibility_witness :
    ("/api/data?type=weightEntries&userId=u1",
      (⟨.arr (upsertArr ("id") [("id", .str ("w1")), ("weight", .num 72)]
          [.obj [("id", .str ("w0")), ("weight", .num 70)]]), "T1"⟩ : CachedEntry)) ∈
      applyLocalMutation ("weightEntry") [("id", .str ("w1")), ("weight", .num 72)] ("T1")
        [("/api/data?type=weightEntries&userId=u1",
          ⟨.arr [.obj [("id", .str ("w0")), ("weight", .num 70)]], "T0"⟩)]
    ∧ ∃ el ∈ upsertArr ("id") [("id", .str ("w1")), ("weight", .num 72)]
          [.obj [("id", .str ("w0")), ("weight", .num 70)]],
        ∀ k v, recGet [("id", .str ("w1")), ("weight", .num 72)] k = some v →
          jsonGet el k = some v :=
  optimistic_patch_visibility ("weightEntry") ⟨"type=weightEntries", "weightEntries", "id"⟩
    [("id", .str ("w1")), ("weight", .num 72)] ("T1")
    [("/api/data?type=weightEntries&userId=u1",
      ⟨.arr [.obj [("id", .str ("w0")), ("weight", .num 70)]], "T0"⟩)]
    ("/api/data?type=weightEntries&userId=u1")
    ⟨.arr [.obj [("id", .str ("w0")), ("weight", .num 70)]], "T0"⟩
    [.obj [("id", .str ("w0")), ("weight", .num 70)]]
    rfl (List.mem_cons_self _ _) (by decide) rfl

-- ─── C9: frame of applyLocalMutation ───

/-- C9. `applyLocalMutation(T, R)` changes a cached entry only when `T` is one
of the seven mapped collection types, the entry's key contains that type's URL
pattern and the cached payload is an array. In every other situation the
entry is untouched: an unmapped type (such as `savedFood`) leaves the whole
cache region unchanged, and for a mapped type any entry whose key misses the
pattern or whose payload is not an array (for example a cached single-object
profile or user response) is returned unchanged; no entry is ever added or
removed. Such writes are therefore never optimistically visible. -/
theorem applyLocalMutation_frame (T : String) (data : JRecord) (now : String)
    (cache : Cache) :
    typeToCollectionMap ("savedFood") = none
    ∧ (typeToCollectionMap T = none → applyLocalMutation T data now cache = cache)
    ∧ (applyLocalMutation T data now cache).length = cache.length
    ∧ ∀ m, typeToCollectionMap T = some m →
        ∀ i,
          (strIncludes ((cache.getD i (("", ⟨.null, ""⟩))).1) m.urlPattern = false
            ∨ isArrayVal ((cache.getD i (("", ⟨.null, ""⟩))).2.data) = false) →
          (applyLocalMutation T data now cache).getD i (("", ⟨.null, ""⟩)) =
            cache.getD i (("", ⟨.null, ""⟩)) := by
  refine ⟨rfl, ?_, ?_, ?_⟩
  · intro hnone
    simp [applyLocalMutation, hnone]
  · cases htc : typeToCollectionMap T <;> simp [applyLocalMutation, htc]
  · intro m hm i hcond
    simp only [applyLocalMutation, hm]
    by_cases hi : i < cache.length
    · rw [List.getD_eq_getElem _ _ hi] at hcond
      rw [List.getD_eq_getElem _ _ hi,
        List.getD_eq_getElem _ _ (by simpa using hi), List.getElem_map]
      rcases hcond with hpat | hdata
      · simp [hpat]
      · by_cases hp : strIncludes cache[i].1 m.urlPattern
        · simp only [hp, if_true]
          cases hd : cache[i].2.data <;> simp [isArrayVal, hd] at hdata ⊢
        · simp [hp]
    · rw [List.getD_eq_default _ _ (by simp only [List.length_map]; omega),
        List.getD_eq_default _ _ (by omega)]

/-- Witness for C9: a `savedFood` optimistic patch is a global no-op, and a
cached single-object profile response (matching key, non-array payload) is
untouched by a `profile` patch. -/
theorem applyLocalMutation_frame_witness :
    applyLocalMutation ("savedFood") [("id", .str ("s1"))] ("T1")
        [("/api/data?type=savedFoods&userId=u1", ⟨.arr [], "t0"⟩)] =
      [("/api/data?type=savedFoods&userId=u1", ⟨.arr [], "t0"⟩)]
    ∧ (applyLocalMutation ("profile") [("userId", .str ("u1"))] ("T1")
        [("/api/data?type=profile&userId=u1",
          ⟨.obj [("userId", .str ("u1"))], "t0"⟩)]).getD 0 (("", ⟨.null, ""⟩)) =
      ([("/api/data?type=profile&userId=u1",
        ⟨.obj [("userId", .str ("u1"))], "t0"⟩)] : Cache).getD 0 (("", ⟨.null, ""⟩)) :=
  ⟨(applyLocalMutation_frame ("savedFood") [("id", .str ("s1"))] ("T1")
      [("/api/data?type=savedFoods&userId=u1", ⟨.arr [], "t0"⟩)]).2.1 rfl,
   (applyLocalMutation_frame ("profile") [("userId", .str ("u1"))] ("T1")
      [("/api/data?type=profile&userId=u1",
        ⟨.obj [("userId", .str ("u1"))], "t0"⟩)]).2.2.2
     ⟨"type=profile", "profiles", "userId"⟩ rfl 0 (Or.inr rfl)⟩

-- ─── C10: notify and subscription contract ───

/-- C10. `notify` first stores the new status and pending count (listeners,
guard untouched), then invokes every subscribed listener exactly once with
that pair; the call trace is the full map over the listener list, so a
listener whose invocation throws (an `Except.error` result) neither prevents
the other listeners' invocations nor escapes (`notify` is total and its
result does not depend on the listeners' results). `onSyncStatusChange`
invokes the newly added listener synchronously with the state current at
subscription time. -/
theorem notify_listener_contract (e : EngineState) (status : SyncStatus) (pending : Nat)
    (l : Listener) :
    (notify e status pending).1.currentStatus = status
    ∧ (notify e status pending).1.currentPending = pending
    ∧ (notify e status pending).1.listeners = e.listeners
    ∧ (notify e status pending).1.isSyncing = e.isSyncing
    ∧ (notify e status pending).2 =
        e.listeners.map (fun x => ⟨x.id, status, pending, x.run status pending⟩)
    ∧ (∀ x ∈ e.listeners,
        (⟨x.id, status, pending, x.run status pending⟩ : ListenerCall) ∈
          (notify e status pending).2)
    ∧ (onSyncStatusChange e l).2 =
        ⟨l.id, e.currentStatus, e.currentPending, l.run e.currentStatus e.currentPending⟩ := by
  refine ⟨rfl, rfl, rfl, rfl, rfl, ?_, rfl⟩
  intro x hx
  exact List.mem_map_of_mem _ hx

/-- Witness for C10: one well-behaved and one throwing listener; both are
invoked with the published pair, the throwing one first. -/
theorem notify_listener_contract_witness :
    (⟨1, SyncStatus.error, 2, Except.error ("boom")⟩ : ListenerCall) ∈
      (notify ⟨[⟨1, fun _ _ => Except.error ("boom")⟩, ⟨2, fun _ _ => Except.ok ()⟩],
        .idle, 0, false⟩ .error 2).2 :=
  (notify_listener_contract
    ⟨[⟨1, fun _ _ => Except.error ("boom")⟩, ⟨2, fun _ _ => Except.ok ()⟩], .idle, 0, false⟩
    .error 2 ⟨3, fun _ _ => Except.ok ()⟩).2.2.2.2.2.1
    ⟨1, fun _ _ => Except.error ("boom")⟩ (List.mem_cons_self _ _)

end CaloryTrack



